import Mathlib

/-!
Verification of the script-to-package transformation and build cache of
`cargo-script` (`src/main.rs`), as a shallow embedding in Lean.

Text is modelled as `List Char` (the byte/char content of Rust `&str`
slices).  External collaborators (filesystem, clock, hash primitive,
build toolchain) are passed in as explicit parameters, mirroring the
spec's collaborator boundaries.
-/

/-- Script/manifest text, the content of a Rust string slice. -/
abbrev Str := List Char

namespace CargoScript

/-- `s.starts_with p` on string slices. -/
def strHasPrefixOf : Str → Str → Bool
  | _, [] => true
  | [], _ :: _ => false
  | c :: s, p :: ps => c = p && strHasPrefixOf s ps

/-- `str::contains(pat)` for a literal pattern: some contiguous substring matches. -/
def strContainsSub : Str → Str → Bool
  | [], pat => pat.isEmpty
  | c :: rest, pat => strHasPrefixOf (c :: rest) pat || strContainsSub rest pat

/-- Rust `char::is_whitespace` (Unicode `White_Space` property, as in the
stdlib of the era of this code). -/
def isRustWhitespace (c : Char) : Bool :=
  (0x09 ≤ c.toNat && c.toNat ≤ 0x0D) || c.toNat = 0x20 || c.toNat = 0x85 ||
  c.toNat = 0xA0 || c.toNat = 0x1680 ||
  (0x2000 ≤ c.toNat && c.toNat ≤ 0x200A) ||
  c.toNat = 0x2028 || c.toNat = 0x2029 || c.toNat = 0x202F ||
  c.toNat = 0x205F || c.toNat = 0x3000

/-- Rust `str::trim_left`: drop leading whitespace. -/
def trimLeft (s : Str) : Str := s.dropWhile isRustWhitespace

/-- Strip one trailing `'\r'`, as `lines_any` does to each line. -/
def stripCR (l : Str) : Str :=
  match l.getLast? with
  | some '\r' => l.dropLast
  | _ => l

/-- Helper for `linesAny`: remaining characters, offset of the start of the
current line, reversed accumulator of the current line. -/
def linesAnyAux : Str → Nat → Str → List (Nat × Str)
  | [], lineStart, acc =>
    if acc.isEmpty then [] else [(lineStart, stripCR acc.reverse)]
  | '\n' :: rest, lineStart, acc =>
    (lineStart, stripCR acc.reverse) :: linesAnyAux rest (lineStart + acc.length + 1) []
  | c :: rest, lineStart, acc => linesAnyAux rest lineStart (c :: acc)

/-- Rust `str::lines_any`: the lines of the content (split at `'\n'`, with a
trailing `'\r'` stripped from each line), each paired with the offset of its
first character within the content. -/
def linesAny (content : Str) : List (Nat × Str) := linesAnyAux content 0 []

/-- The fixed `SPLIT_MARKERS` list from `split_input`. -/
def SPLIT_MARKERS : List Str :=
  [ "//".data, "/*".data, "#![".data, "#[".data, "pub ".data,
    "extern ".data, "use ".data, "mod ".data, "type ".data,
    "struct ".data, "enum ".data, "fn ".data, "impl ".data, "impl<".data,
    "static ".data, "const ".data ]

/-- The dash-divider test of `split_input`: every character is whitespace or
`'-'`, and there are at least three dashes. -/
def isDividerLine (line : Str) : Bool :=
  line.all (fun c => isRustWhitespace c || c = '-') &&
    3 ≤ (line.filter (fun c => c = '-')).length

/-- The code-marker test of `split_input`: the left-trimmed line starts with
one of the `SPLIT_MARKERS` prefixes. -/
def isMarkerLine (line : Str) : Bool :=
  SPLIT_MARKERS.any (fun m => strHasPrefixOf (trimLeft line) m)

/-- The line scan of `split_input` over the (offset, line) pairs, carrying the
current `(manifest_end, source_start)` offsets.  A divider line breaks the
loop with the split placed around the divider; a marker line records the
split at the start of the line but the loop continues (the `break` in the
source only leaves the inner marker loop). -/
def scan_lines : List (Nat × Str) → Option (Nat × Nat) → Option (Nat × Nat)
  | [], st => st
  | (off, line) :: rest, st =>
    if isDividerLine line then some (off, off + line.length)
    else if isMarkerLine line then scan_lines rest (some (off, off))
    else scan_lines rest st

/-- The lines `split_input` actually scans: all lines of the content, minus a
leading hashbang line (`#!` but not `#![`). -/
def effectiveLines (content : Str) : List (Nat × Str) :=
  match linesAny content with
  | [] => []
  | (off, line) :: rest =>
    if strHasPrefixOf line "#!".data && !strHasPrefixOf line "#![".data
    then rest
    else (off, line) :: rest

/-- The `Input::File` branch of `split_input`: split content into the embedded
manifest fragment and the Rust source, or fail when no divider or marker line
is found.  The fragment is `content[..manifest_end]` and the source is
`content[source_start..]`, exactly as the `subslice_offset` arithmetic in the
source computes them. -/
def split_input_file (content : Str) : Except String (Str × Str) :=
  match scan_lines (effectiveLines content) none with
  | some (me, ss) => .ok (content.take me, content.drop ss)
  | none => .error "could not locate start of Rust source in script"

/-- First divider line of a line list, if any. -/
def firstDivider (ls : List (Nat × Str)) : Option (Nat × Str) :=
  ls.find? (fun p => isDividerLine p.2)

/-- Last marker line of a line list, if any. -/
def lastMarker (ls : List (Nat × Str)) : Option (Nat × Str) :=
  ls.reverse.find? (fun p => isMarkerLine p.2)

theorem lastMarker_cons (p : Nat × Str) (rest : List (Nat × Str)) :
    lastMarker (p :: rest) =
      match lastMarker rest with
      | some q => some q
      | none => if isMarkerLine p.2 then some p else none := by
  unfold lastMarker
  rw [List.reverse_cons, List.find?_append]
  cases h : List.find? (fun q => isMarkerLine q.2) rest.reverse with
  | some q => simp
  | none =>
    simp only [Option.none_or]
    by_cases hm : isMarkerLine p.2 <;> simp [List.find?, hm]

/-- The scan of `split_input` is determined by the first divider line when one
exists, and otherwise by the last marker line: a marker match does not stop
the loop, so later marker lines overwrite the recorded split. -/
theorem scan_lines_eq (ls : List (Nat × Str)) (st : Option (Nat × Nat)) :
    scan_lines ls st =
      match firstDivider ls with
      | some (off, l) => some (off, off + l.length)
      | none =>
        match lastMarker ls with
        | some (off, _) => some (off, off)
        | none => st := by
  induction ls generalizing st with
  | nil => rfl
  | cons p rest ih =>
    obtain ⟨off, line⟩ := p
    by_cases hd : isDividerLine line
    · have h1 : firstDivider ((off, line) :: rest) = some (off, line) := by
        unfold firstDivider
        exact List.find?_cons_of_pos _ hd
      simp only [scan_lines, hd, if_true, h1]
    · have h1 : firstDivider ((off, line) :: rest) = firstDivider rest := by
        unfold firstDivider
        exact List.find?_cons_of_neg _ (by simp [hd])
      rw [lastMarker_cons] at *
      by_cases hm : isMarkerLine line
      · have hl : scan_lines ((off, line) :: rest) st
            = scan_lines rest (some (off, off)) := by
          simp [scan_lines, hd, hm]
        rw [hl, ih, h1]
        cases hfd : firstDivider rest with
        | some q => rfl
        | none =>
          cases hlm : lastMarker rest with
          | some q => simp
          | none => simp [hm]
      · have hl : scan_lines ((off, line) :: rest) st = scan_lines rest st := by
          simp [scan_lines, hd, hm]
        rw [hl, ih, h1]
        cases hfd : firstDivider rest with
        | some q => rfl
        | none =>
          cases hlm : lastMarker rest with
          | some q => simp
          | none => simp [hm]

/-- Claim C1 (counterexample): the line scan does not stop at the first
matching line.  In `"fn a()\nuse b;\n"` the very first scanned line,
`"fn a()"`, is already a marker line, so a first-match-wins scan would place
the whole content in the source part and leave the fragment empty; the code
instead moves the split to the later marker line `"use b;"`, producing the
nonempty fragment `"fn a()\n"`. -/
theorem split_input_first_match_refuted :
    isMarkerLine "fn a()".data = true ∧
    isMarkerLine "use b;".data = true ∧
    split_input_file "fn a()\nuse b;\n".data
      = .ok ("fn a()\n".data, "use b;\n".data) ∧
    "fn a()\n".data ≠ ([] : Str) :=
  ⟨by decide, by decide, rfl, by decide⟩

/-- Claim C1 (amended): the fragment/source split of a File input is
determined by the first divider line when the scan reaches one; otherwise by
the LAST marker line (marker detection does not stop the scan, so a later
marker line does change the split); if neither exists the split fails. -/
theorem split_input_split_characterization (content : Str) :
    split_input_file content =
      match firstDivider (effectiveLines content) with
      | some (off, l) => .ok (content.take off, content.drop (off + l.length))
      | none =>
        match lastMarker (effectiveLines content) with
        | some (off, _) => .ok (content.take off, content.drop off)
        | none => .error "could not locate start of Rust source in script" := by
  unfold split_input_file
  rw [scan_lines_eq]
  cases hfd : firstDivider (effectiveLines content) with
  | some q => obtain ⟨off, l⟩ := q; rfl
  | none =>
    cases hlm : lastMarker (effectiveLines content) with
    | some q => obtain ⟨off, l⟩ := q; rfl
    | none => rfl

/-- Claim C5 (counterexample): splitting
`"#!/bin/sh\n//cargo-deps: foo=\"1\"\nfn main(){}\n"` does not return the
fragment `"//cargo-deps: foo=\"1\"\n"`: the shebang line is only skipped for
scanning and remains at the head of the returned fragment text. -/
theorem split_example_shebang_refuted :
    split_input_file "#!/bin/sh\n//cargo-deps: foo=\"1\"\nfn main()\x7b\x7d\n".data
      = .ok ("#!/bin/sh\n//cargo-deps: foo=\"1\"\n".data, "fn main()\x7b\x7d\n".data) ∧
    "#!/bin/sh\n//cargo-deps: foo=\"1\"\n".data ≠ "//cargo-deps: foo=\"1\"\n".data :=
  ⟨rfl, by decide⟩

/-- Claim C5 (amended): splitting the File input
`"#!/bin/sh\n//cargo-deps: foo=\"1\"\nfn main(){}\n"` returns the fragment
`"#!/bin/sh\n//cargo-deps: foo=\"1\"\n"` (the shebang is discarded from the
scan but belongs to the fragment text, and the `//` marker line lands in the
fragment because the scan continues to the later `fn ` marker line) and the
source `"fn main(){}\n"`. -/
theorem split_example_actual :
    split_input_file "#!/bin/sh\n//cargo-deps: foo=\"1\"\nfn main()\x7b\x7d\n".data
      = .ok ("#!/bin/sh\n//cargo-deps: foo=\"1\"\n".data, "fn main()\x7b\x7d\n".data) :=
  rfl

/-! ## Config table merger (`merge_manifest`) -/

/-- `toml::Value`: the generic nested config value.  The merger never inspects
the payloads of scalar values, so `Float`/`Datetime` carry their textual
representation. -/
inductive TomlValue where
  | String (s : Str)
  | Integer (n : Int)
  | Float (repr : Str)
  | Boolean (b : Bool)
  | Datetime (s : Str)
  | Array (xs : List TomlValue)
  | Table (t : List (Str × TomlValue))

/-- `toml::Table`: a finite map from keys to values, modelled as an
association list (the `BTreeMap` is observed only through lookups and
inserts). -/
abbrev TomlTable := List (Str × TomlValue)

/-- Association-list lookup (first matching key), the map-read of `BTreeMap`. -/
def alookup {α : Type} : List (Str × α) → Str → Option α
  | [], _ => none
  | (k', v) :: rest, k => if k' = k then some v else alookup rest k

/-- Association-list insert with replacement, the map-write of `BTreeMap`. -/
def ainsert {α : Type} : List (Str × α) → Str → α → List (Str × α)
  | [], k, v => [(k, v)]
  | (k', v') :: rest, k, v =>
    if k' = k then (k', v) :: rest else (k', v') :: ainsert rest k v

/-- `BTreeMap::extend`: insert every entry of `ft` into `bt`, the right-hand
side winning on key collision. -/
def extendT (bt ft : TomlTable) : TomlTable :=
  ft.foldl (fun acc kv => ainsert acc kv.1 kv.2) bt

/-- Is the value a `Table`? -/
def TomlValue.isTable : TomlValue → Bool
  | .Table _ => true
  | _ => false

/-- The (single) error message of `merge_manifest`. -/
def mergeConflictMsg : String :=
  "cannot merge manifests: cannot merge table and non-table values"

/-- `merge_manifest`: merge the second manifest into the first.  A `Table`
value in `from_t` is merged into an existing table (or inserted when the key
is vacant) and conflicts with an existing non-table value; any other value
replaces the existing entry outright. -/
def merge_manifest : TomlTable → TomlTable → Except String TomlTable
  | into_t, [] => .ok into_t
  | into_t, (k, v) :: rest =>
    match v with
    | .Table from_t =>
      match alookup into_t k with
      | none => merge_manifest (ainsert into_t k (.Table from_t)) rest
      | some (.Table bt) =>
        merge_manifest (ainsert into_t k (.Table (extendT bt from_t))) rest
      | some _ => .error mergeConflictMsg
    | v => merge_manifest (ainsert into_t k v) rest

/-- No two entries of the association list share a key. -/
def NodupKeys {α : Type} (m : List (Str × α)) : Prop :=
  List.Pairwise (fun a b => a.1 ≠ b.1) m

theorem alookup_ainsert_self {α : Type} (m : List (Str × α)) (k : Str) (v : α) :
    alookup (ainsert m k v) k = some v := by
  induction m with
  | nil => simp [ainsert, alookup]
  | cons p rest ih =>
    obtain ⟨k', v'⟩ := p
    by_cases h : k' = k <;> simp [ainsert, alookup, h, ih]

theorem alookup_ainsert_ne {α : Type} (m : List (Str × α)) (k k' : Str) (v : α)
    (h : k' ≠ k) : alookup (ainsert m k v) k' = alookup m k' := by
  have hne : ¬(k = k') := fun hh => h hh.symm
  induction m with
  | nil => simp [ainsert, alookup, hne]
  | cons p rest ih =>
    obtain ⟨k₀, v₀⟩ := p
    by_cases h0 : k₀ = k
    · subst h0
      simp [ainsert, alookup, hne]
    · by_cases h1 : k₀ = k' <;> simp [ainsert, alookup, h0, h1, ih, h]

theorem alookup_eq_none_of_forall_ne {α : Type} (m : List (Str × α)) (k : Str)
    (h : ∀ q ∈ m, q.1 ≠ k) : alookup m k = none := by
  induction m with
  | nil => rfl
  | cons p rest ih =>
    simp only [alookup]
    rw [if_neg (h p (by simp))]
    exact ih (fun q hq => h q (by simp [hq]))

instance : Inhabited TomlValue := ⟨.Boolean false⟩

theorem isTable_iff (v : TomlValue) : v.isTable = true ↔ ∃ t, v = .Table t := by
  cases v
  case Table t => exact ⟨fun _ => ⟨t, rfl⟩, fun _ => rfl⟩
  all_goals exact ⟨fun h => Bool.noConfusion h, fun ⟨_, ht⟩ => TomlValue.noConfusion ht⟩

/-- One step of `merge_manifest` on a non-table overlay value is an outright
replacement. -/
theorem merge_manifest_cons_nontable (into_t : TomlTable) (k : Str)
    (v : TomlValue) (rest : TomlTable) (hv : v.isTable = false) :
    merge_manifest into_t ((k, v) :: rest)
      = merge_manifest (ainsert into_t k v) rest := by
  cases v <;> simp [merge_manifest] <;> simp [TomlValue.isTable] at hv

/-- One step of `merge_manifest` on a table overlay value over a vacant key. -/
theorem merge_manifest_cons_table_vacant (into_t : TomlTable) (k : Str)
    (ft rest : TomlTable) (hb : alookup into_t k = none) :
    merge_manifest into_t ((k, .Table ft) :: rest)
      = merge_manifest (ainsert into_t k (.Table ft)) rest := by
  simp [merge_manifest, hb]

/-- One step of `merge_manifest` on a table overlay value over an existing
table extends the existing table. -/
theorem merge_manifest_cons_table_table (into_t : TomlTable) (k : Str)
    (ft bt rest : TomlTable) (hb : alookup into_t k = some (.Table bt)) :
    merge_manifest into_t ((k, .Table ft) :: rest)
      = merge_manifest (ainsert into_t k (.Table (extendT bt ft))) rest := by
  simp [merge_manifest, hb]

/-- One step of `merge_manifest` on a table overlay value over an existing
non-table value fails with the merge-conflict error. -/
theorem merge_manifest_cons_table_conflict (into_t : TomlTable) (k : Str)
    (ft rest : TomlTable) (bv : TomlValue) (hb : alookup into_t k = some bv)
    (hv : bv.isTable = false) :
    merge_manifest into_t ((k, .Table ft) :: rest) = .error mergeConflictMsg := by
  cases bv <;> simp [merge_manifest, hb] <;> simp [TomlValue.isTable] at hv

/-- Merging keys that are all different from `k` never changes the value at
`k` in a successful result. -/
theorem merge_lookup_of_not_mem (from_t : TomlTable) :
    ∀ (into_t t : TomlTable) (k : Str), (∀ q ∈ from_t, q.1 ≠ k) →
      merge_manifest into_t from_t = .ok t → alookup t k = alookup into_t k := by
  induction from_t with
  | nil =>
    intro into_t t k _ hm
    cases hm
    rfl
  | cons p rest ih =>
    intro into_t t k hne hm
    obtain ⟨k₀, v₀⟩ := p
    have hk0 : k ≠ k₀ := Ne.symm (hne (k₀, v₀) (by simp))
    have hrest : ∀ q ∈ rest, q.1 ≠ k := fun q hq => hne q (by simp [hq])
    by_cases hv : v₀.isTable = true
    · obtain ⟨ft, rfl⟩ := (isTable_iff v₀).mp hv
      cases hb : alookup into_t k₀ with
      | none =>
        rw [merge_manifest_cons_table_vacant _ _ _ _ hb] at hm
        rw [ih _ _ _ hrest hm, alookup_ainsert_ne _ _ _ _ hk0]
      | some bv =>
        by_cases hbv : bv.isTable = true
        · obtain ⟨bt, rfl⟩ := (isTable_iff bv).mp hbv
          rw [merge_manifest_cons_table_table _ _ _ _ _ hb] at hm
          rw [ih _ _ _ hrest hm, alookup_ainsert_ne _ _ _ _ hk0]
        · rw [merge_manifest_cons_table_conflict _ _ _ _ _ hb
            (Bool.not_eq_true _ ▸ hbv)] at hm
          exact absurd hm (by simp)
    · rw [merge_manifest_cons_nontable _ _ _ _ (Bool.not_eq_true _ ▸ hv)] at hm
      rw [ih _ _ _ hrest hm, alookup_ainsert_ne _ _ _ _ hk0]

/-- If the overlay holds a table at `k` while the base holds a non-table
value there, the merge fails with the merge-conflict error. -/
theorem merge_error_of_table_over_nontable (from_t : TomlTable) :
    ∀ (into_t : TomlTable) (k : Str) (ft : TomlTable) (bv : TomlValue),
      alookup from_t k = some (.Table ft) → alookup into_t k = some bv →
      bv.isTable = false →
      merge_manifest into_t from_t = .error mergeConflictMsg := by
  induction from_t with
  | nil => intro into_t k ft bv hf _ _; cases hf
  | cons p rest ih =>
    intro into_t k ft bv hf hb hbv
    obtain ⟨k₀, v₀⟩ := p
    by_cases hk : k₀ = k
    · subst hk
      have hv0 : v₀ = .Table ft := by
        simpa [alookup] using hf
      subst hv0
      exact merge_manifest_cons_table_conflict _ _ _ _ _ hb hbv
    · have hf' : alookup rest k = some (.Table ft) := by
        simpa [alookup, hk] using hf
      have hk' : k ≠ k₀ := fun hh => hk hh.symm
      by_cases hv : v₀.isTable = true
      · obtain ⟨ft₀, rfl⟩ := (isTable_iff v₀).mp hv
        cases hb0 : alookup into_t k₀ with
        | none =>
          rw [merge_manifest_cons_table_vacant _ _ _ _ hb0]
          exact ih _ _ _ _ hf' (by rw [alookup_ainsert_ne _ _ _ _ hk', hb]) hbv
        | some bv₀ =>
          by_cases hbv0 : bv₀.isTable = true
          · obtain ⟨bt₀, rfl⟩ := (isTable_iff bv₀).mp hbv0
            rw [merge_manifest_cons_table_table _ _ _ _ _ hb0]
            exact ih _ _ _ _ hf' (by rw [alookup_ainsert_ne _ _ _ _ hk', hb]) hbv
          · exact merge_manifest_cons_table_conflict _ _ _ _ _ hb0
              (Bool.not_eq_true _ ▸ hbv0)
      · rw [merge_manifest_cons_nontable _ _ _ _ (Bool.not_eq_true _ ▸ hv)]
        exact ih _ _ _ _ hf' (by rw [alookup_ainsert_ne _ _ _ _ hk', hb]) hbv

/-- A non-table overlay value at `k` ends up at `k` in a successful merge
result (outright replacement, no conflict). -/
theorem merge_replaces_nontable (from_t : TomlTable) :
    ∀ (into_t t : TomlTable) (k : Str) (v : TomlValue),
      NodupKeys from_t → alookup from_t k = some v → v.isTable = false →
      merge_manifest into_t from_t = .ok t → alookup t k = some v := by
  induction from_t with
  | nil => intro into_t t k v _ hf _ _; cases hf
  | cons p rest ih =>
    intro into_t t k v hnd hf hv hm
    obtain ⟨k₀, v₀⟩ := p
    have hndrest : NodupKeys rest := hnd.sublist (List.sublist_cons_self _ _)
    by_cases hk : k₀ = k
    · subst hk
      have hv0 : v₀ = v := by simpa [alookup] using hf
      subst hv0
      have hkrest : ∀ q ∈ rest, q.1 ≠ k₀ := by
        intro q hq
        have := (List.pairwise_cons.mp hnd).1 q hq
        exact fun hh => this (by simp [hh])
      rw [merge_manifest_cons_nontable _ _ _ _ hv] at hm
      rw [merge_lookup_of_not_mem _ _ _ _ hkrest hm, alookup_ainsert_self]
    · have hf' : alookup rest k = some v := by simpa [alookup, hk] using hf
      by_cases hvt : v₀.isTable = true
      · obtain ⟨ft₀, rfl⟩ := (isTable_iff v₀).mp hvt
        cases hb0 : alookup into_t k₀ with
        | none =>
          rw [merge_manifest_cons_table_vacant _ _ _ _ hb0] at hm
          exact ih _ _ _ _ hndrest hf' hv hm
        | some bv₀ =>
          by_cases hbv0 : bv₀.isTable = true
          · obtain ⟨bt₀, rfl⟩ := (isTable_iff bv₀).mp hbv0
            rw [merge_manifest_cons_table_table _ _ _ _ _ hb0] at hm
            exact ih _ _ _ _ hndrest hf' hv hm
          · rw [merge_manifest_cons_table_conflict _ _ _ _ _ hb0
              (Bool.not_eq_true _ ▸ hbv0)] at hm
            exact absurd hm (by simp)
      · rw [merge_manifest_cons_nontable _ _ _ _ (Bool.not_eq_true _ ▸ hvt)] at hm
        exact ih _ _ _ _ hndrest hf' hv hm

/-- When both sides hold tables at `k`, a successful merge holds the base
table extended with the overlay table at `k`. -/
theorem merge_extends_tables (from_t : TomlTable) :
    ∀ (into_t t : TomlTable) (k : Str) (ft bt : TomlTable),
      NodupKeys from_t → alookup from_t k = some (.Table ft) →
      alookup into_t k = some (.Table bt) →
      merge_manifest into_t from_t = .ok t →
      alookup t k = some (.Table (extendT bt ft)) := by
  induction from_t with
  | nil => intro into_t t k ft bt _ hf _ _; cases hf
  | cons p rest ih =>
    intro into_t t k ft bt hnd hf hb hm
    obtain ⟨k₀, v₀⟩ := p
    have hndrest : NodupKeys rest := hnd.sublist (List.sublist_cons_self _ _)
    by_cases hk : k₀ = k
    · subst hk
      have hv0 : v₀ = .Table ft := by simpa [alookup] using hf
      subst hv0
      have hkrest : ∀ q ∈ rest, q.1 ≠ k₀ := by
        intro q hq
        have := (List.pairwise_cons.mp hnd).1 q hq
        exact fun hh => this (by simp [hh])
      rw [merge_manifest_cons_table_table _ _ _ _ _ hb] at hm
      rw [merge_lookup_of_not_mem _ _ _ _ hkrest hm, alookup_ainsert_self]
    · have hf' : alookup rest k = some (.Table ft) := by
        simpa [alookup, hk] using hf
      have hk' : k ≠ k₀ := fun hh => hk hh.symm
      by_cases hvt : v₀.isTable = true
      · obtain ⟨ft₀, rfl⟩ := (isTable_iff v₀).mp hvt
        cases hb0 : alookup into_t k₀ with
        | none =>
          rw [merge_manifest_cons_table_vacant _ _ _ _ hb0] at hm
          exact ih _ _ _ _ _ hndrest hf'
            (by rw [alookup_ainsert_ne _ _ _ _ hk', hb]) hm
        | some bv₀ =>
          by_cases hbv0 : bv₀.isTable = true
          · obtain ⟨bt₀, rfl⟩ := (isTable_iff bv₀).mp hbv0
            rw [merge_manifest_cons_table_table _ _ _ _ _ hb0] at hm
            exact ih _ _ _ _ _ hndrest hf'
              (by rw [alookup_ainsert_ne _ _ _ _ hk', hb]) hm
          · rw [merge_manifest_cons_table_conflict _ _ _ _ _ hb0
              (Bool.not_eq_true _ ▸ hbv0)] at hm
            exact absurd hm (by simp)
      · rw [merge_manifest_cons_nontable _ _ _ _ (Bool.not_eq_true _ ▸ hvt)] at hm
        exact ih _ _ _ _ _ hndrest hf'
          (by rw [alookup_ainsert_ne _ _ _ _ hk', hb]) hm

theorem extendT_lookup_of_not_mem (ft : TomlTable) :
    ∀ (bt : TomlTable) (k : Str), (∀ q ∈ ft, q.1 ≠ k) →
      alookup (extendT bt ft) k = alookup bt k := by
  induction ft with
  | nil => intro bt k _; rfl
  | cons p rest ih =>
    intro bt k hne
    obtain ⟨k₀, w₀⟩ := p
    have hk0 : k ≠ k₀ := Ne.symm (hne (k₀, w₀) (by simp))
    show alookup (extendT (ainsert bt k₀ w₀) rest) k = alookup bt k
    rw [ih _ _ (fun q hq => hne q (by simp [hq])),
      alookup_ainsert_ne _ _ _ _ hk0]

/-- In `extendT` the right-hand (overlay) table wins on key collision. -/
theorem extendT_lookup_right (ft : TomlTable) :
    ∀ (bt : TomlTable) (k : Str) (w : TomlValue),
      NodupKeys ft → alookup ft k = some w →
      alookup (extendT bt ft) k = some w := by
  induction ft with
  | nil => intro bt k w _ hf; cases hf
  | cons p rest ih =>
    intro bt k w hnd hf
    obtain ⟨k₀, w₀⟩ := p
    by_cases hk : k₀ = k
    · subst hk
      have hw : w₀ = w := by simpa [alookup] using hf
      subst hw
      have hkrest : ∀ q ∈ rest, q.1 ≠ k₀ := by
        intro q hq
        have := (List.pairwise_cons.mp hnd).1 q hq
        exact fun hh => this (by simp [hh])
      show alookup (extendT (ainsert bt k₀ w₀) rest) k₀ = some w₀
      rw [extendT_lookup_of_not_mem _ _ _ hkrest, alookup_ainsert_self]
    · have hf' : alookup rest k = some w := by simpa [alookup, hk] using hf
      exact ih _ _ _ (hnd.sublist (List.sublist_cons_self _ _)) hf'

/-- Claim C4 (counterexample): a key that is a table in the base and a
non-table in the overlay does NOT raise a merge conflict: the overlay value
replaces the base table outright, so the conflict is not raised "in both
directions". -/
theorem merge_manifest_reverse_conflict_refuted :
    merge_manifest [("x".data, .Table [])] [("x".data, .String "y".data)]
      = .ok [("x".data, .String "y".data)] := rfl

/-- Claim C4 (amended): for a key `k` present in both tables, the merge fails
with the merge-conflict error exactly in one direction — the overlay value is
a table while the base value is a non-table.  In the other direction (base
table, overlay non-table) the overlay value replaces the base entry outright
in a successful merge; when both are tables the base table is extended with
the overlay's entries, the overlay winning on collision. -/
theorem merge_manifest_conflict_one_direction (base overlay : TomlTable) (k : Str) :
    (∀ ft bv, alookup overlay k = some (.Table ft) → alookup base k = some bv →
      bv.isTable = false → merge_manifest base overlay = .error mergeConflictMsg)
    ∧ (NodupKeys overlay → ∀ v t, alookup overlay k = some v → v.isTable = false →
      merge_manifest base overlay = .ok t → alookup t k = some v)
    ∧ (NodupKeys overlay → ∀ ft bt t, alookup overlay k = some (.Table ft) →
      alookup base k = some (.Table bt) → merge_manifest base overlay = .ok t →
      alookup t k = some (.Table (extendT bt ft)))
    ∧ (∀ ft bt w, NodupKeys ft → alookup ft k = some w →
      alookup (extendT bt ft) k = some w) :=
  ⟨fun ft bv hf hb hbv => merge_error_of_table_over_nontable _ _ _ _ _ hf hb hbv,
   fun hnd v t hf hv hm => merge_replaces_nontable _ _ _ _ _ hnd hf hv hm,
   fun hnd ft bt t hf hb hm => merge_extends_tables _ _ _ _ _ _ hnd hf hb hm,
   fun ft bt w hnd hf => extendT_lookup_right _ _ _ _ hnd hf⟩

/-- Witness for the amended C4 theorem at concrete tables: a conflict in the
table-over-non-table direction, an outright replacement, and a table
extension with the overlay winning. -/
theorem merge_manifest_conflict_one_direction_witness :
    merge_manifest [("x".data, .String "y".data)] [("x".data, .Table [])]
      = .error mergeConflictMsg
    ∧ alookup [("x".data, TomlValue.String "y".data)] "x".data
      = some (.String "y".data)
    ∧ alookup (extendT [("a".data, TomlValue.Integer 1)]
        [("a".data, TomlValue.Integer 2)]) "a".data = some (.Integer 2) := by
  refine ⟨?_, rfl, ?_⟩
  · exact (merge_manifest_conflict_one_direction
      [("x".data, .String "y".data)] [("x".data, .Table [])] "x".data).1
      [] (.String "y".data) rfl rfl rfl
  · exact (merge_manifest_conflict_one_direction
      [("a".data, .Integer 1)] [("a".data, .Integer 2)] "a".data).2.2.2
      [("a".data, .Integer 2)] [("a".data, .Integer 1)] (.Integer 2)
      (by constructor <;> simp) rfl

/-! ## Dependency-spec processing (the `deps` block of `try_main`) -/

/-- `dep.find('=').is_some()`: does the spec text contain an equals sign? -/
def hasEq (s : Str) : Bool := s.any (fun c => c = '=')

/-- `splitn(2, '=')`: the text before the first `'='` and the text after it,
when an `'='` is present. -/
def splitFirstEq : Str → Option (Str × Str)
  | [] => none
  | c :: rest =>
    if c = '=' then some ([], rest)
    else (splitFirstEq rest).map (fun p => (c :: p.1, p.2))

/-- Parse one `--dep` spec: append `"=*"` when no version is given, split at
the first `'='`, and reject an empty name or version. -/
def parse_dep (dep : Str) : Except String (Str × Str) :=
  let d := if hasEq dep then dep else dep ++ "=*".data
  match splitFirstEq d with
  | some (name, version) =>
    if name.isEmpty then .error "cannot have empty dependency package name"
    else if version.isEmpty then .error "cannot have empty dependency version"
    else .ok (name, version)
  | none => .error "dependency is missing version"

/-- The version-conflict error text of `try_main`. -/
def depConflictMsg (name existing version : Str) : String :=
  "conflicting versions for dependency '" ++ String.mk name ++ "': '"
    ++ String.mk existing ++ "', '" ++ String.mk version ++ "'"

/-- The `HashMap` entry step of `try_main`: a vacant name is inserted, an
occupied one must carry the identical version text. -/
def add_dep (m : List (Str × Str)) (nv : Str × Str) :
    Except String (List (Str × Str)) :=
  match alookup m nv.1 with
  | none => .ok (m ++ [nv])
  | some existing =>
    if nv.2 = existing then .ok m
    else .error (depConflictMsg nv.1 existing nv.2)

/-- Process all `--dep` args into the name→version map. -/
def build_deps : List Str → List (Str × Str) → Except String (List (Str × Str))
  | [], m => .ok m
  | d :: rest, m =>
    match parse_dep d with
    | .error e => .error e
    | .ok nv =>
      match add_dep m nv with
      | .error e => .error e
      | .ok m' => build_deps rest m'

/-- The `(String, String)` ordering used by `deps.sort()`: lexicographic on
the name, then on the version text. -/
def depLe (a b : Str × Str) : Prop := a.1 < b.1 ∨ (a.1 = b.1 ∧ a.2 ≤ b.2)

instance : DecidableRel depLe := fun a b => by
  unfold depLe
  exact inferInstance

instance : IsTotal (Str × Str) depLe where
  total a b := by
    rcases lt_trichotomy a.1 b.1 with h | h | h
    · exact Or.inl (Or.inl h)
    · rcases le_total a.2 b.2 with h2 | h2
      · exact Or.inl (Or.inr ⟨h, h2⟩)
      · exact Or.inr (Or.inr ⟨h.symm, h2⟩)
    · exact Or.inr (Or.inl h)

instance : IsTrans (Str × Str) depLe where
  trans a b c hab hbc := by
    rcases hab with h1 | ⟨h1, h1v⟩ <;> rcases hbc with h2 | ⟨h2, h2v⟩
    · exact Or.inl (lt_trans h1 h2)
    · exact Or.inl (h2 ▸ h1)
    · exact Or.inl (h1 ▸ h2)
    · exact Or.inr ⟨h1.trans h2, le_trans h1v h2v⟩

/-- The whole dependency-processing block of `try_main`: build the map from
the argument list, then sort it into the deterministic dependency list. -/
def process_deps (args : List Str) : Except String (List (Str × Str)) :=
  (build_deps args []).map (List.insertionSort depLe)

theorem forall_ne_of_alookup_none {α : Type} (m : List (Str × α)) (k : Str)
    (h : alookup m k = none) : ∀ q ∈ m, q.1 ≠ k := by
  induction m with
  | nil => intro q hq; cases hq
  | cons p rest ih =>
    intro q hq
    obtain ⟨k₀, v₀⟩ := p
    by_cases hk : k₀ = k
    · simp [alookup, hk] at h
    · rcases List.mem_cons.mp hq with hq | hq
      · simpa [hq] using hk
      · exact ih (by simpa [alookup, hk] using h) q hq

theorem add_dep_nodup (m : List (Str × Str)) (nv : Str × Str)
    (m' : List (Str × Str)) (hnd : NodupKeys m) (h : add_dep m nv = .ok m') :
    NodupKeys m' := by
  unfold add_dep at h
  cases hl : alookup m nv.1 with
  | none =>
    simp only [hl] at h
    cases h
    unfold NodupKeys
    rw [List.pairwise_append]
    refine ⟨hnd, List.pairwise_singleton _ _, ?_⟩
    intro a ha b hb
    simp only [List.mem_singleton] at hb
    rw [hb]
    exact forall_ne_of_alookup_none m nv.1 hl a ha
  | some existing =>
    simp only [hl] at h
    by_cases hv : nv.2 = existing
    · rw [if_pos hv] at h
      cases h
      exact hnd
    · rw [if_neg hv] at h
      cases h

theorem build_deps_nodup (args : List Str) :
    ∀ (m m' : List (Str × Str)), NodupKeys m → build_deps args m = .ok m' →
      NodupKeys m' := by
  induction args with
  | nil =>
    intro m m' hnd h
    cases h
    exact hnd
  | cons d rest ih =>
    intro m m' hnd h
    unfold build_deps at h
    cases hp : parse_dep d with
    | error e =>
      simp only [hp] at h
      exact Except.noConfusion h
    | ok nv =>
      simp only [hp] at h
      cases ha : add_dep m nv with
      | error e =>
        simp only [ha] at h
        exact Except.noConfusion h
      | ok m₁ =>
        simp only [ha] at h
        exact ih _ _ (add_dep_nodup _ _ _ hnd ha) h

theorem splitFirstEq_append (s r : Str) (h : hasEq s = false) :
    splitFirstEq (s ++ '=' :: r) = some (s, r) := by
  induction s with
  | nil => simp [splitFirstEq]
  | cons c rest ih =>
    have hc : ¬(c = '=') := by
      intro hh
      subst hh
      simp [hasEq] at h
    have hrest : hasEq rest = false := by
      simp [hasEq] at h ⊢
      exact fun x hx => h.2 x hx
    rw [List.cons_append]
    simp only [splitFirstEq, hc, if_false, ih hrest]
    rfl

theorem process_deps_sorted (args : List Str) (l : List (Str × Str))
    (h : process_deps args = .ok l) :
    List.Pairwise (fun a b : Str × Str => a.1 < b.1) l := by
  unfold process_deps at h
  cases hb : build_deps args [] with
  | error e =>
    simp only [hb, Except.map] at h
    exact Except.noConfusion h
  | ok m =>
    simp only [hb, Except.map] at h
    have hl : l = List.insertionSort depLe m := by
      cases h
      rfl
    subst hl
    have hnd : NodupKeys m := build_deps_nodup args [] m List.Pairwise.nil hb
    have hperm : List.Perm (List.insertionSort depLe m) m :=
      List.perm_insertionSort depLe m
    have hnd' : NodupKeys (List.insertionSort depLe m) :=
      (hperm.pairwise_iff (fun hab => Ne.symm hab)).mpr hnd
    have hsorted : List.Pairwise depLe (List.insertionSort depLe m) :=
      List.sorted_insertionSort depLe m
    refine (hsorted.and hnd').imp ?_
    intro a b hab
    rcases hab with ⟨hle | ⟨heq, _⟩, hne⟩
    · exact hle
    · exact absurd heq hne

/-- Claim C7: dependency-spec processing expands a bare name to version
`"*"`, rejects empty names and versions, fails on the conflicting arg list
`["foo", "foo=1.2", "bar=2"]` with the version-conflict error, and any
successful result has strictly increasing names — no two entries share a
name and the list is sorted by name. -/
theorem try_main_deps_processing :
    (∀ s : Str, s ≠ [] → hasEq s = false → parse_dep s = .ok (s, "*".data))
    ∧ (∀ v : Str,
        parse_dep ('=' :: v) = .error "cannot have empty dependency package name")
    ∧ (∀ n : Str, n ≠ [] → hasEq n = false →
        parse_dep (n ++ ['=']) = .error "cannot have empty dependency version")
    ∧ process_deps ["foo".data, "foo=1.2".data, "bar=2".data]
        = .error "conflicting versions for dependency 'foo': '*', '1.2'"
    ∧ (∀ (args : List Str) (l : List (Str × Str)), process_deps args = .ok l →
        List.Pairwise (fun a b : Str × Str => a.1 < b.1) l) := by
  refine ⟨?_, ?_, ?_, rfl, process_deps_sorted⟩
  · intro s hne hs
    unfold parse_dep
    simp only [hs, Bool.false_eq_true, if_false]
    rw [show s ++ "=*".data = s ++ '=' :: "*".data from rfl,
      splitFirstEq_append _ _ hs]
    cases s with
    | nil => exact absurd rfl hne
    | cons c rest => rfl
  · intro v
    unfold parse_dep
    have hd : hasEq ('=' :: v) = true := by simp [hasEq]
    simp only [hd, if_true]
    simp [splitFirstEq]
  · intro n hne hn
    unfold parse_dep
    have hd : hasEq (n ++ ['=']) = true := by simp [hasEq]
    simp only [hd, if_true]
    rw [show n ++ ['='] = n ++ '=' :: ([] : Str) from rfl,
      splitFirstEq_append _ _ hn]
    cases n with
    | nil => exact absurd rfl hne
    | cons c rest => rfl

/-- Witness for the C7 theorem at concrete inputs: `"foo"` expands to
`("foo", "*")`, `"=1"` and `"foo="` are rejected, and the successful list for
`["foo", "bar=2"]` is strictly sorted by name. -/
theorem try_main_deps_processing_witness :
    parse_dep "foo".data = .ok ("foo".data, "*".data)
    ∧ parse_dep "=1".data = .error "cannot have empty dependency package name"
    ∧ parse_dep "foo=".data = .error "cannot have empty dependency version"
    ∧ List.Pairwise (fun a b : Str × Str => a.1 < b.1)
        [("bar".data, "2".data), ("foo".data, "*".data)] := by
  refine ⟨?_, ?_, ?_, ?_⟩
  · exact try_main_deps_processing.1 "foo".data (by decide) (by decide)
  · exact try_main_deps_processing.2.1 "1".data
  · exact try_main_deps_processing.2.2.1 "foo".data (by decide) (by decide)
  · exact try_main_deps_processing.2.2.2.2 ["foo".data, "bar=2".data]
      [("bar".data, "2".data), ("foo".data, "*".data)] rfl

/-! ## Input variants and the identity hasher (`Input::compute_id`) -/

/-- The `STUB_HASHES` build-time constant. -/
def STUB_HASHES : Bool := false

/-- `Input`: the three input variants.  `File` carries display name, absolute
path, content, and last-modified time. -/
inductive Input where
  | File (name : Str) (path : Str) (content : Str) (mtime : Nat)
  | Expr (content : Str)
  | Loop (content : Str) (count : Bool)

/-- `Input::safe_name`. -/
def Input.safe_name : Input → Str
  | .File name _ _ _ => name
  | .Expr _ => "expr".data
  | .Loop _ _ => "loop".data

/-- The dependency part of the hashed pre-image: the hasher is fed
`"dep=" ++ name ++ "=" ++ version ++ ";"` for each entry in list order. -/
def hash_deps_str : List (Str × Str) → Str
  | [] => []
  | nv :: rest =>
    "dep=".data ++ nv.1 ++ "=".data ++ nv.2 ++ ";".data ++ hash_deps_str rest

/-- The truncated hex digest used inside `compute_id`.

Modelled from the spec: the SHA-1 primitive is an external library
collaborator ("a library producing a hex digest string from byte input") and
the truncation bound `consts::ID_DIGEST_LEN_MAX` lives in the `consts`
module, which is not among the sources; both are therefore parameters. -/
def truncDigest (len : Nat) (digest : Str → Str) (s : Str) : Str :=
  (digest s).take len

/-- `Input::compute_id`: the cache-slot identifier.  The File variant hashes
only the absolute path; Expr and Loop hash the rendered dependency list
followed by (for Loop) the `count` flag marker and the raw content. -/
def Input.compute_id (len : Nat) (digest : Str → Str) :
    Input → List (Str × Str) → Str
  | .File name path _ _, _ =>
    "file-".data ++ name ++ "-".data
      ++ (if STUB_HASHES then "stub".data else truncDigest len digest path)
  | .Expr content, deps =>
    "expr-".data
      ++ (if STUB_HASHES then "stub".data
          else truncDigest len digest (hash_deps_str deps ++ content))
  | .Loop content count, deps =>
    "loop-".data
      ++ (if STUB_HASHES then "stub".data
          else truncDigest len digest
            (hash_deps_str deps ++ "count:".data
              ++ (if count then "true;".data else "false;".data) ++ content))

theorem hash_deps_str_append (xs ys : List (Str × Str)) :
    hash_deps_str (xs ++ ys) = hash_deps_str xs ++ hash_deps_str ys := by
  induction xs with
  | nil => rfl
  | cons nv rest ih =>
    simp only [List.cons_append, hash_deps_str, List.append_eq, ih,
      List.append_assoc]

/-- Changing one dependency version changes the hashed pre-image. -/
theorem hash_deps_str_version_ne (pre post : List (Str × Str)) (n v v' : Str)
    (tail : Str) (hv : v ≠ v') :
    hash_deps_str (pre ++ (n, v) :: post) ++ tail
      ≠ hash_deps_str (pre ++ (n, v') :: post) ++ tail := by
  intro h
  apply hv
  rw [hash_deps_str_append, hash_deps_str_append] at h
  simp only [hash_deps_str, List.append_assoc] at h
  have h1 := List.append_cancel_left h
  have h2 := List.append_cancel_left h1
  have h3 := List.append_cancel_left h2
  have h4 := List.append_cancel_left h3
  rw [← List.append_assoc, ← List.append_assoc, ← List.append_assoc,
    ← List.append_assoc] at h4
  exact List.append_cancel_right
    (by simpa only [List.append_assoc] using h4)

/-- Claim C6: `compute_id` is deterministic; a File identifier depends only
on the safe name and absolute path, so content, timestamp, and the whole
dependency list are irrelevant to it; for Expr and Loop inputs, changing one
dependency version changes the hashed pre-image, and hence — whenever the
external digest collaborator does not collide on the two distinct pre-images —
changes the identifier. -/
theorem compute_id_identity :
    (∀ (len : Nat) (digest : Str → Str) (i₁ i₂ : Input)
        (d₁ d₂ : List (Str × Str)), i₁ = i₂ → d₁ = d₂ →
        Input.compute_id len digest i₁ d₁ = Input.compute_id len digest i₂ d₂)
    ∧ (∀ (len : Nat) (digest : Str → Str) (n p c c' : Str) (m m' : Nat)
        (d₁ d₂ : List (Str × Str)),
        Input.compute_id len digest (.File n p c m) d₁
          = Input.compute_id len digest (.File n p c' m') d₂)
    ∧ (∀ (len : Nat) (digest : Str → Str) (pre post : List (Str × Str))
        (n v v' content : Str), v ≠ v' →
        (hash_deps_str (pre ++ (n, v) :: post) ++ content
          ≠ hash_deps_str (pre ++ (n, v') :: post) ++ content)
        ∧ (truncDigest len digest (hash_deps_str (pre ++ (n, v) :: post) ++ content)
            ≠ truncDigest len digest (hash_deps_str (pre ++ (n, v') :: post) ++ content) →
          Input.compute_id len digest (.Expr content) (pre ++ (n, v) :: post)
            ≠ Input.compute_id len digest (.Expr content) (pre ++ (n, v') :: post)))
    ∧ (∀ (len : Nat) (digest : Str → Str) (pre post : List (Str × Str))
        (n v v' content : Str) (cnt : Bool), v ≠ v' →
        (hash_deps_str (pre ++ (n, v) :: post) ++ "count:".data
            ++ (if cnt then "true;".data else "false;".data) ++ content
          ≠ hash_deps_str (pre ++ (n, v') :: post) ++ "count:".data
            ++ (if cnt then "true;".data else "false;".data) ++ content)
        ∧ (truncDigest len digest (hash_deps_str (pre ++ (n, v) :: post)
              ++ "count:".data ++ (if cnt then "true;".data else "false;".data)
              ++ content)
            ≠ truncDigest len digest (hash_deps_str (pre ++ (n, v') :: post)
              ++ "count:".data ++ (if cnt then "true;".data else "false;".data)
              ++ content) →
          Input.compute_id len digest (.Loop content cnt) (pre ++ (n, v) :: post)
            ≠ Input.compute_id len digest (.Loop content cnt) (pre ++ (n, v') :: post))) := by
  refine ⟨?_, ?_, ?_, ?_⟩
  · intro len digest i₁ i₂ d₁ d₂ hi hd
    rw [hi, hd]
  · intro len digest n p c c' m m' d₁ d₂
    rfl
  · intro len digest pre post n v v' content hv
    refine ⟨hash_deps_str_version_ne pre post n v v' content hv, ?_⟩
    intro htd h
    exact htd (List.append_cancel_left
      (by simpa only [Input.compute_id, STUB_HASHES, if_false] using h))
  · intro len digest pre post n v v' content cnt hv
    constructor
    · simp only [List.append_assoc]
      exact hash_deps_str_version_ne pre post n v v'
        ("count:".data ++ ((if cnt then "true;".data else "false;".data)
          ++ content)) hv
    · intro htd h
      exact htd (List.append_cancel_left
        (by simpa only [Input.compute_id, STUB_HASHES, if_false] using h))

/-- Witness for claim C6 at concrete inputs with the identity function as
digest: determinism, and version changes flipping Expr and Loop identifiers. -/
theorem compute_id_identity_witness :
    Input.compute_id 100 (fun s => s) (.Expr "x".data) [("foo".data, "1".data)]
      = Input.compute_id 100 (fun s => s) (.Expr "x".data) [("foo".data, "1".data)]
    ∧ Input.compute_id 100 (fun s => s) (.File "n".data "p".data "c".data 3)
        [("foo".data, "1".data)]
      = Input.compute_id 100 (fun s => s) (.File "n".data "p".data "d".data 4)
        [("foo".data, "2".data)]
    ∧ Input.compute_id 100 (fun s => s) (.Expr "x".data) [("foo".data, "1".data)]
      ≠ Input.compute_id 100 (fun s => s) (.Expr "x".data) [("foo".data, "2".data)]
    ∧ Input.compute_id 100 (fun s => s) (.Loop "x".data true) [("foo".data, "1".data)]
      ≠ Input.compute_id 100 (fun s => s) (.Loop "x".data true) [("foo".data, "2".data)] := by
  refine ⟨?_, ?_, ?_, ?_⟩
  · exact compute_id_identity.1 100 (fun s => s) _ _ _ _ rfl rfl
  · exact compute_id_identity.2.1 100 (fun s => s) "n".data "p".data "c".data
      "d".data 3 4 [("foo".data, "1".data)] [("foo".data, "2".data)]
  · exact (compute_id_identity.2.2.1 100 (fun s => s) [] [] "foo".data
      "1".data "2".data "x".data (by decide)).2 (by decide)
  · exact (compute_id_identity.2.2.2 100 (fun s => s) [] [] "foo".data
      "1".data "2".data "x".data true (by decide)).2 (by decide)

/-- Claim C10: inputs of different variants always receive distinct
identifiers, because the three identifiers start with the distinct literal
prefixes `"file-"`, `"expr-"` and `"loop-"` regardless of the digest. -/
theorem compute_id_variant_distinct (len : Nat) (digest : Str → Str)
    (n p c : Str) (m : Nat) (e lc : Str) (cnt : Bool)
    (d₁ d₂ d₃ : List (Str × Str)) :
    Input.compute_id len digest (.File n p c m) d₁
      ≠ Input.compute_id len digest (.Expr e) d₂
    ∧ Input.compute_id len digest (.File n p c m) d₁
      ≠ Input.compute_id len digest (.Loop lc cnt) d₃
    ∧ Input.compute_id len digest (.Expr e) d₂
      ≠ Input.compute_id len digest (.Loop lc cnt) d₃ := by
  have hf : (Input.compute_id len digest (.File n p c m) d₁).head? = some 'f' := rfl
  have he : (Input.compute_id len digest (.Expr e) d₂).head? = some 'e' := rfl
  have hl : (Input.compute_id len digest (.Loop lc cnt) d₃).head? = some 'l' := rfl
  refine ⟨fun h => ?_, fun h => ?_, fun h => ?_⟩
  · rw [congrArg List.head? h, he] at hf
    exact absurd (Option.some.inj hf) (by decide)
  · rw [congrArg List.head? h, hl] at hf
    exact absurd (Option.some.inj hf) (by decide)
  · rw [congrArg List.head? h, hl] at he
    exact absurd (Option.some.inj he) (by decide)

/-! ## Package metadata and the cache decision engine (`cache_action_for`) -/

/-- `CacheAction`: compile afresh, or execute what is in the cache. -/
inductive CacheAction where
  | Compile
  | Execute
deriving DecidableEq

/-- `PackageMetadata`: the decision-relevant snapshot of an input. -/
structure PackageMetadata where
  path : Option Str
  modified : Option Nat
  debug : Bool
  deps : List (Str × Str)
deriving DecidableEq

/-- The `input_meta` construction inside `cache_action_for`: File inputs
record their path and timestamp, Expr and Loop record neither. -/
def input_metadata (input : Input) (debug : Bool) (deps : List (Str × Str)) :
    PackageMetadata :=
  match input with
  | .File _ path _ mtime =>
    { path := some path, modified := some mtime, debug := debug, deps := deps }
  | .Expr _ => { path := none, modified := none, debug := debug, deps := deps }
  | .Loop _ _ => { path := none, modified := none, debug := debug, deps := deps }

/-- The decision chain of `cache_action_for`.  The filesystem observations
are parameters: `stored` is the outcome of `get_pkg_metadata` for the slot
(`none` for any load failure) and `exe_is_file` is whether the derived
artifact path exists as a regular file. -/
def cache_action_for (input : Input) (debug : Bool) (deps : List (Str × Str))
    (stored : Option PackageMetadata) (exe_is_file : Bool) :
    CacheAction × PackageMetadata :=
  let input_meta := input_metadata input debug deps
  match stored with
  | none => (.Compile, input_meta)
  | some cache_meta =>
    if cache_meta ≠ input_meta then (.Compile, input_meta)
    else if ¬exe_is_file then (.Compile, input_meta)
    else (.Execute, input_meta)

/-- Claim C2: the outcome is Execute exactly when the stored metadata loads
and equals the freshly computed metadata and the artifact path is a regular
file; metadata equality is field-by-field equality of path, modified, debug,
and deps. -/
theorem cache_action_for_execute_iff :
    (∀ (input : Input) (debug : Bool) (deps : List (Str × Str))
        (stored : Option PackageMetadata) (exe_is_file : Bool),
      (cache_action_for input debug deps stored exe_is_file).1 = CacheAction.Execute
        ↔ (stored = some (input_metadata input debug deps) ∧ exe_is_file = true))
    ∧ (∀ m m' : PackageMetadata, m = m'
        ↔ (m.path = m'.path ∧ m.modified = m'.modified ∧ m.debug = m'.debug
            ∧ m.deps = m'.deps)) := by
  constructor
  · intro input debug deps stored exe_is_file
    cases stored with
    | none => simp [cache_action_for]
    | some cache_meta =>
      by_cases hm : cache_meta = input_metadata input debug deps
      · subst hm
        cases exe_is_file <;> simp [cache_action_for]
      · cases exe_is_file <;> simp [cache_action_for, hm]
  · intro m m'
    constructor
    · intro h
      rw [h]
      exact ⟨rfl, rfl, rfl, rfl⟩
    · obtain ⟨p, mo, d, dp⟩ := m
      obtain ⟨p', mo', d', dp'⟩ := m'
      intro ⟨h1, h2, h3, h4⟩
      simp only at h1 h2 h3 h4
      rw [h1, h2, h3, h4]

/-! ## Cache janitor (`clean_cache`) -/

/-- One cache-slot directory as the janitor observes it: the last-modified
timestamp of its metadata file, or `none` when the file cannot be opened. -/
structure Slot where
  metaMtime : Option Nat
deriving DecidableEq

/-- The `remove_dir` decision of `clean_cache` for one slot, given the cutoff
`now - max_age`: remove when the metadata file cannot be opened, or when
`meta_mtime <= cutoff`. -/
def remove_dir (cutoff : Nat) (s : Slot) : Bool :=
  match s.metaMtime with
  | none => true
  | some t => t ≤ cutoff

/-- `clean_cache`: sweep every slot directory of the cache root and collect
the ones that get removed (a failed deletion is logged, not fatal, and does
not affect the remaining decisions). -/
def clean_cache (now max_age : Nat) (slots : List Slot) : List Slot :=
  slots.filter (remove_dir (now - max_age))

/-- Claim C3 (counterexample): a slot whose metadata timestamp is exactly at
the cutoff `now - max_age` is removed, not retained: the comparison in the
source is `meta_mtime <= cutoff`. -/
theorem clean_cache_boundary_refuted :
    remove_dir (100 - 40) (Slot.mk (some 60)) = true
    ∧ clean_cache 100 40 [Slot.mk (some 60)] = [Slot.mk (some 60)] :=
  ⟨rfl, rfl⟩

/-- Claim C3 (amended): a slot with readable metadata is deleted if and only
if its metadata timestamp is older than or equal to `now - max_age`; the slot
exactly at the cutoff boundary is deleted. -/
theorem clean_cache_removes_iff_le_cutoff (now max_age : Nat)
    (slots : List Slot) (s : Slot) (t : Nat) (hma : max_age ≤ now)
    (ht : s.metaMtime = some t) :
    s ∈ clean_cache now max_age slots ↔ (s ∈ slots ∧ t ≤ now - max_age) := by
  unfold clean_cache
  rw [List.mem_filter]
  unfold remove_dir
  rw [ht]
  simp

/-- Witness for the amended C3 theorem: with `now = 100` and `max_age = 40`,
the slot with metadata timestamp exactly `60 = now - max_age` is removed. -/
theorem clean_cache_removes_iff_le_cutoff_witness :
    (40 ≤ 100 ∧ (Slot.mk (some 60)).metaMtime = some 60)
    ∧ (Slot.mk (some 60) ∈ clean_cache 100 40 [Slot.mk (some 60)]
        ↔ (Slot.mk (some 60) ∈ [Slot.mk (some 60)] ∧ 60 ≤ 100 - 40)) :=
  ⟨⟨by decide, rfl⟩,
    clean_cache_removes_iff_le_cutoff 100 40 [Slot.mk (some 60)]
      (Slot.mk (some 60)) 60 (by decide) rfl⟩

/-- Claim C9: a sweep with `max_age = 0` removes every slot: those whose
metadata cannot be opened, and those with readable metadata of any timestamp
not later than the current time. -/
theorem clean_cache_zero_removes_all (now : Nat) (slots : List Slot) (s : Slot) :
    s ∈ clean_cache now 0 slots
      ↔ (s ∈ slots
          ∧ (s.metaMtime = none ∨ ∃ t, s.metaMtime = some t ∧ t ≤ now)) := by
  unfold clean_cache
  rw [List.mem_filter]
  unfold remove_dir
  cases ht : s.metaMtime with
  | none => simp
  | some t => simp [ht]

/-! ## Compiling a slot (`compile`) -/

/-- The observable cache-slot state around a `compile` call: whether the slot
directory exists, and whether a metadata file written by this run is present. -/
structure SlotState where
  dirExists : Bool
  metaWritten : Bool
deriving DecidableEq

/-- Outcomes of the external collaborators invoked by `compile`, passed as
parameters: the fragment/source split result, directory creation, the
manifest write, the capturing build plus dummy-script write of
`extract_lib_names`, the script write, the `cargo build` exit status
(`none` = no exit code), and the metadata write. -/
structure CompileEnv where
  splitRes : Except String (Str × Str)
  createDirOk : Bool
  writeManiOk : Bool
  extractLibsOk : Bool
  writeScriptOk : Bool
  buildStatus : Option Int
  writeMetaOk : Bool

/-- `cargo_build`: exit status 0 is success; any other exit status or a
missing exit code is a build error. -/
def cargo_build (status : Option Int) : Except String Unit :=
  match status with
  | some st =>
    if st = 0 then .ok ()
    else .error ("cargo failed with status " ++ toString st)
  | none => .error "cargo failed"

/-- `compile`: split the input, create and populate the slot directory,
build, and only then write the metadata.

Modelled from the spec: `util::Defer` is in the `util` module, which is not
among the sources; per the spec ("rollback-on-failure", a scoped cleanup
"guarding slot-directory creation until a successful metadata write disarms
it"), every error path between `create_dir_all` and the successful metadata
write removes the slot directory.  The split failure happens before the
directory is created and the cleanup armed, so it leaves the state as it
was. -/
def compile (env : CompileEnv) (s₀ : SlotState) :
    Except String Unit × SlotState :=
  match env.splitRes with
  | .error e => (.error e, s₀)
  | .ok (_mani, script) =>
    cond env.createDirOk
      (cond env.writeManiOk
        (cond (cond (strContainsSub script "fn main".data)
                env.writeScriptOk
                (env.extractLibsOk && env.writeScriptOk))
          (match cargo_build env.buildStatus with
           | .error e => (.error e, ⟨false, false⟩)
           | .ok () =>
             cond env.writeMetaOk
               (.ok (), ⟨true, true⟩)
               (.error "could not write metadata", ⟨false, false⟩))
          (.error "could not write script", ⟨false, false⟩))
        (.error "could not write manifest", ⟨false, false⟩))
      (.error "could not create slot directory", s₀)

/-- Claim C8 (counterexample): when splitting fails, `compile` returns an
error but the populated slot directory is NOT removed — the split happens
before the slot directory is created and the cleanup guard armed, so a
pre-existing populated slot survives the failure intact. -/
theorem compile_split_failure_keeps_slot_refuted :
    compile
      { splitRes := .error "could not parse embedded manifest",
        createDirOk := true, writeManiOk := true, extractLibsOk := true,
        writeScriptOk := true, buildStatus := some 0, writeMetaOk := true }
      (SlotState.mk true false)
      = (.error "could not parse embedded manifest", SlotState.mk true false)
    ∧ (compile
      { splitRes := .error "could not parse embedded manifest",
        createDirOk := true, writeManiOk := true, extractLibsOk := true,
        writeScriptOk := true, buildStatus := some 0, writeMetaOk := true }
      (SlotState.mk true false)).2.dirExists = true :=
  ⟨rfl, rfl⟩

/-- Complete case analysis of `compile`: a split or directory-creation
failure errors out leaving the state untouched; any later failure errors out
with the slot removed and no metadata; success writes the metadata and
requires build exit status 0 and a successful metadata write. -/
theorem compile_cases (env : CompileEnv) (s₀ : SlotState) :
    (∃ e, compile env s₀ = (.error e, s₀)
      ∧ ((∃ p, env.splitRes = .error p) ∨ env.createDirOk = false))
    ∨ (∃ e, compile env s₀ = (.error e, ⟨false, false⟩))
    ∨ (compile env s₀ = (.ok (), ⟨true, true⟩)
        ∧ env.buildStatus = some 0 ∧ env.writeMetaOk = true) := by
  obtain ⟨sr, cd, wm, el, ws, bs, wmeta⟩ := env
  cases sr with
  | error e => exact Or.inl ⟨e, rfl, Or.inl ⟨e, rfl⟩⟩
  | ok p =>
    obtain ⟨mani, script⟩ := p
    cases cd with
    | false => exact Or.inl ⟨"could not create slot directory", rfl, Or.inr rfl⟩
    | true =>
      cases wm with
      | false => exact Or.inr (Or.inl ⟨"could not write manifest", rfl⟩)
      | true =>
        cases hsok : cond (strContainsSub script "fn main".data) ws (el && ws) with
        | false =>
          refine Or.inr (Or.inl ⟨"could not write script", ?_⟩)
          show cond (cond (strContainsSub script "fn main".data) ws (el && ws))
            _ _ = _
          rw [hsok]
          rfl
        | true =>
          have hred : compile ⟨.ok (mani, script), true, true, el, ws, bs, wmeta⟩ s₀
              = (match cargo_build bs with
                 | .error e => (.error e, ⟨false, false⟩)
                 | .ok () =>
                   cond wmeta
                     (.ok (), ⟨true, true⟩)
                     (.error "could not write metadata", ⟨false, false⟩)) := by
            show cond (cond (strContainsSub script "fn main".data) ws (el && ws))
              _ _ = _
            rw [hsok]
            rfl
          cases bs with
          | none =>
            rw [show cargo_build none = .error "cargo failed" from rfl] at hred
            exact Or.inr (Or.inl ⟨"cargo failed", hred⟩)
          | some st =>
            by_cases hst : st = 0
            · subst hst
              rw [show cargo_build (some 0) = .ok () from rfl] at hred
              cases wmeta with
              | false => exact Or.inr (Or.inl ⟨"could not write metadata", hred⟩)
              | true => exact Or.inr (Or.inr ⟨hred, rfl, rfl⟩)
            · rw [show cargo_build (some st)
                  = .error ("cargo failed with status " ++ toString st) from by
                simp [cargo_build, hst]] at hred
              exact Or.inr
                (Or.inl ⟨"cargo failed with status " ++ toString st, hred⟩)

/-- Claim C8 (amended): metadata is present after `compile` exactly when
`compile` succeeded, and success requires the build collaborator to have
reported exit status 0 and the metadata write to have succeeded; on any
failure no metadata file from this run remains, and for any failure after
directory creation (manifest or source writing, a failed build, or a failed
metadata write) the populated slot directory is removed; a splitting failure
occurs before the directory is touched and leaves the incoming state as it
was (with still no metadata written). -/
theorem compile_rollback (env : CompileEnv) (s₀ : SlotState)
    (h₀ : s₀.metaWritten = false) :
    ((compile env s₀).2.metaWritten = true ↔ (compile env s₀).1 = .ok ())
    ∧ ((compile env s₀).1 = .ok () →
        env.buildStatus = some 0 ∧ env.writeMetaOk = true)
    ∧ (∀ e, (compile env s₀).1 = .error e →
        (compile env s₀).2.metaWritten = false
        ∧ (env.createDirOk = true → (∀ p, env.splitRes ≠ .error p) →
            (compile env s₀).2.dirExists = false))
    ∧ (∀ e, env.splitRes = .error e → compile env s₀ = (.error e, s₀)) := by
  have hcases := compile_cases env s₀
  refine ⟨?_, ?_, ?_, ?_⟩
  · rcases hcases with ⟨e, he, _⟩ | ⟨e, he⟩ | ⟨he, _, _⟩ <;> rw [he] <;>
      simp [h₀]
  · rcases hcases with ⟨e, he, _⟩ | ⟨e, he⟩ | ⟨he, hb, hw⟩
    · rw [he]
      simp
    · rw [he]
      simp
    · rw [he]
      exact fun _ => ⟨hb, hw⟩
  · intro e' he'
    rcases hcases with ⟨e, he, hsp⟩ | ⟨e, he⟩ | ⟨he, _, _⟩
    · rw [he]
      refine ⟨h₀, ?_⟩
      intro hcd hp
      rcases hsp with ⟨p, hpp⟩ | hcdf
      · exact absurd hpp (hp p)
      · rw [hcdf] at hcd
        cases hcd
    · rw [he]
      exact ⟨rfl, fun _ _ => rfl⟩
    · rw [he] at he'
      simp at he'
  · intro e he
    simp [compile, he]

/-- Witness for the amended C8 theorem: a failed build on a pre-existing
populated slot yields an error, no metadata, and a removed slot directory. -/
theorem compile_rollback_witness :
    ((compile
        { splitRes := .ok ("m".data, "fn main()".data), createDirOk := true,
          writeManiOk := true, extractLibsOk := true, writeScriptOk := true,
          buildStatus := some 101, writeMetaOk := true }
        (SlotState.mk true false)).2.metaWritten = false)
    ∧ ((compile
        { splitRes := .ok ("m".data, "fn main()".data), createDirOk := true,
          writeManiOk := true, extractLibsOk := true, writeScriptOk := true,
          buildStatus := some 101, writeMetaOk := true }
        (SlotState.mk true false)).2.dirExists = false) := by
  have h := compile_rollback
    { splitRes := .ok ("m".data, "fn main()".data), createDirOk := true,
      writeManiOk := true, extractLibsOk := true, writeScriptOk := true,
      buildStatus := some 101, writeMetaOk := true }
    (SlotState.mk true false) rfl
  have he := h.2.2.1 ("cargo failed with status 101") rfl
  exact ⟨he.1, he.2 rfl (by intro p hp; cases hp)⟩

end CargoScript
